import Mathlib

/-!
Verification of the per-connection streaming relay of the LLM-BESTCODE
repository (stream.js, llm1.js, finalserver.js).  JavaScript strings are
embedded as lists of characters; the newline-delimited JSON decode loop,
the single-flight guard, the session authenticator and the topic filter
are translated directly from the source files.  JSON.parse, a platform
builtin, is modelled by a concrete parser restricted to the record
grammar of spec section 6 (objects with the fields response, done,
error); lines outside that grammar are mapped to a parse failure, which
the relay treats identically to a thrown JSON.parse error.
-/

/-- Characters of a JavaScript string. -/
abbrev JStr := List Char

/-! ## Line splitting (buffer.split with newline, from stream.js lines 118-119) -/

/-- Model of the JavaScript split on newline followed by pop: returns the
complete lines and the trailing fragment after the last newline. -/
def splitNlP : JStr → List JStr × JStr
  | [] => ([], [])
  | c :: rest =>
    let p := splitNlP rest
    if c = '\n' then (([] : JStr) :: p.1, p.2)
    else
      match p.1 with
      | [] => ([], c :: p.2)
      | l :: ls => ((c :: l) :: ls, p.2)

/-- A string with no newline character. -/
def noNl (s : JStr) : Prop := '\n' ∉ s

instance (s : JStr) : Decidable (noNl s) := by unfold noNl; infer_instance

/-- Combination of two split results, describing the split of an
appended string. -/
def joinSplit (p q : List JStr × JStr) : List JStr × JStr :=
  match q.1 with
  | [] => (p.1, p.2 ++ q.2)
  | l :: ls => (p.1 ++ (p.2 ++ l) :: ls, q.2)

/-! ## Record parsing (model of JSON.parse on the upstream record grammar) -/

/-- Strip a literal leading pattern, returning the remainder when the
pattern is present. -/
def dropPre : JStr → JStr → Option JStr
  | [], s => some s
  | _ :: _, [] => none
  | a :: p, b :: s => if a = b then dropPre p s else none

/-- Whether the second string begins with the first. -/
def hasPre (p s : JStr) : Bool := (dropPre p s).isSome

/-- Whether the first string occurs inside the second, as the JavaScript
includes method does. -/
def hasSub (needle : JStr) : JStr → Bool
  | [] => needle.isEmpty
  | c :: t => hasPre needle (c :: t) || hasSub needle t

/-- Read the body of a JSON string literal up to its closing quote.
Escape sequences are outside the modelled grammar. -/
def strBody : JStr → Option (JStr × JStr)
  | [] => none
  | c :: rest =>
    if c = '"' then some (([] : JStr), rest)
    else if c = '\\' then none
    else (strBody rest).map (fun q => (c :: q.1, q.2))

/-- One decoded upstream record: the duck-typed JSON object with the
three recognized fields of spec section 6. -/
structure StreamRec where
  response : Option JStr
  done : Bool
  error : Option JStr
deriving DecidableEq, Repr

/-- Model of JSON.parse followed by field access, restricted to the
record grammar emitted by the generation backend: an object carrying a
response string, a done flag, or an error string, in the concrete
serializations exercised by the spec.  Every other line is a parse
failure, which the decode loops treat exactly like a thrown JSON.parse
error. -/
def parseRecord (line : JStr) : Option StreamRec :=
  match dropPre ("\x7b\"response\":\"").data line with
  | some r =>
    match strBody r with
    | some q =>
      if q.2 = ("\x7d").data then some ⟨some q.1, false, none⟩
      else if q.2 = (",\"done\":true\x7d").data then some ⟨some q.1, true, none⟩
      else if q.2 = (",\"done\":false\x7d").data then some ⟨some q.1, false, none⟩
      else none
    | none => none
  | none =>
    if line = ("\x7b\"done\":true\x7d").data then some ⟨none, true, none⟩
    else if line = ("\x7b\"done\":false\x7d").data then some ⟨none, false, none⟩
    else
      match dropPre ("\x7b\"error\":\"").data line with
      | some r =>
        match strBody r with
        | some q => if q.2 = ("\x7d").data then some ⟨none, false, some q.1⟩ else none
        | none => none
      | none => none

/-- The JavaScript check that a trimmed line is empty: every character
is whitespace. -/
def blank (l : JStr) : Bool := l.all Char.isWhitespace

/-! ## The structured-framing decode loop (stream.js lines 105-146, identical
in finalserver.js lines 1413-1454) -/

/-- One message sent to the client socket. -/
inductive OutMsg where
  | stream (content : JStr)
  | complete (content : JStr)
  | completeFiltered (content : JStr)
  | error (content : JStr)
  | raw (content : JStr)
deriving DecidableEq, Repr

/-- Processing of one successfully parsed record in the structured
variant: forward a truthy response fragment and accumulate it, then on a
truthy done flag forward the completion envelope and signal the break
out of the line loop.  An empty response string is falsy in JavaScript
and is neither forwarded nor accumulated. -/
def recOut (fr : JStr) (r : StreamRec) : JStr × List OutMsg × Bool :=
  let p :=
    match r.response with
    | some s => if s.isEmpty then (fr, ([] : List OutMsg)) else (fr ++ s, [OutMsg.stream s])
    | none => (fr, ([] : List OutMsg))
  if r.done then (p.1, p.2 ++ [OutMsg.complete p.1], true)
  else (p.1, p.2, false)

/-- The for loop over the complete lines of one read batch: blank lines
are skipped, parse failures are ignored, and a done record breaks out of
the batch.  Returns the updated transcript and the forwarded messages. -/
def procLines (fr : JStr) : List JStr → JStr × List OutMsg
  | [] => (fr, [])
  | line :: rest =>
    if blank line then procLines fr rest
    else
      match parseRecord line with
      | none => procLines fr rest
      | some r =>
        let s := recOut fr r
        if s.2.2 then (s.1, s.2.1)
        else
          let t := procLines s.1 rest
          (t.1, s.2.1 ++ t.2)

/-- The while loop reading upstream chunks: append the chunk to the
carry-over buffer, split on newlines, retain the trailing fragment, and
process the complete lines.  End of stream ends the loop. -/
def procChunks (buffer fr : JStr) : List JStr → List OutMsg
  | [] => []
  | ch :: rest =>
    let p := splitNlP (buffer ++ ch)
    let s := procLines fr p.1
    s.2 ++ procChunks p.2 s.1 rest

/-- The line-extraction part of the decode loop alone: the complete
lines produced across all read batches, with the carry-over buffer
threaded between reads. -/
def extractLines (buffer : JStr) : List JStr → List JStr
  | [] => []
  | ch :: rest =>
    let p := splitNlP (buffer ++ ch)
    p.1 ++ extractLines p.2 rest

/-- The sequence of records decoded from a chunked stream: the complete
lines that parse as records, in order. -/
def decodedRecords (chunks : List JStr) : List StreamRec :=
  (extractLines [] chunks).filterMap parseRecord

/-- Result of the outbound fetch to the generation backend, as observed
by the message handler. -/
inductive Upstream where
  | threw (msg : JStr)
  | httpErr (status : Nat)
  | noBody
  | okStream (chunks : List JStr)

/-- The stream.js message handler after the prompt is read: the error
envelopes for a failed fetch, a non-ok status or a missing body, and the
decode loop on a streamed body (lines 81-154). -/
def relayMessage : Upstream → List OutMsg
  | Upstream.threw m => [OutMsg.error m]
  | Upstream.httpErr st =>
    [OutMsg.error (("Ollama responded with status ").data ++ (toString st).data)]
  | Upstream.noBody => [OutMsg.error (("No response body from Ollama").data)]
  | Upstream.okStream chunks => procChunks [] [] chunks

/-! ## The auth-gated decode loop (llm1.js lines 644-700, llm3 variant) -/

/-- The completion banner of the gated variant. -/
def gatedCompleteMsg : JStr := ("\n\n---\n*Response complete* ✅\n").data

/-- The error banner of the gated variant. -/
def gatedErrorMsg (e : JStr) : JStr := ("\n❌ Error: ").data ++ e ++ ("\n").data

/-- Processing of one parsed record in the gated variant: a truthy
response is sent raw and accumulated; a truthy done flag sends the
completion banner and breaks; otherwise a truthy error field sends the
error banner and breaks. -/
def gatedRecOut (fr : JStr) (r : StreamRec) : JStr × List OutMsg × Bool :=
  let p :=
    match r.response with
    | some s => if s.isEmpty then (fr, ([] : List OutMsg)) else (fr ++ s, [OutMsg.raw s])
    | none => (fr, ([] : List OutMsg))
  if r.done then (p.1, p.2 ++ [OutMsg.raw gatedCompleteMsg], true)
  else
    match r.error with
    | some e =>
      if e.isEmpty then (p.1, p.2, false)
      else (p.1, p.2 ++ [OutMsg.raw (gatedErrorMsg e)], true)
    | none => (p.1, p.2, false)

/-- The gated variant of the for loop over the complete lines of one
batch, with a break on a done record or on a truthy error field. -/
def gatedProcLines (fr : JStr) : List JStr → JStr × List OutMsg
  | [] => (fr, [])
  | line :: rest =>
    if blank line then gatedProcLines fr rest
    else
      match parseRecord line with
      | none => gatedProcLines fr rest
      | some r =>
        let s := gatedRecOut fr r
        if s.2.2 then (s.1, s.2.1)
        else
          let t := gatedProcLines s.1 rest
          (t.1, s.2.1 ++ t.2)

/-! ## Single-flight guard and cancellation (llm1.js lines 20-139) -/

/-- Per-connection relay state (llm1.js lines 25-29): the busy flag and
the installed cancellation handle, identified by a number. -/
structure Conn where
  isProcessing : Bool
  abortController : Option Nat
deriving DecidableEq, Repr

/-- How one in-flight generation request ends: normal completion, or an
exception identified by its JavaScript name and message.  A cancelled
request surfaces as the exception named AbortError. -/
inductive Outcome where
  | success
  | failure (errName errMsg : JStr)

/-- Entering flight (llm1.js lines 40-43): set the busy flag and install
a fresh cancellation handle. -/
def enterFlight (c : Conn) (fresh : Nat) : Conn :=
  { c with isProcessing := true, abortController := some fresh }

/-- The finally block (llm1.js lines 112-118): clear the busy flag and
drop the cancellation handle, on every way out of the try. -/
def finallyCleanup (c : Conn) : Conn :=
  { c with isProcessing := false, abortController := none }

/-- One complete run of the message handler on a connection: the guard
returns early while busy (no upstream call), otherwise flight is
entered, the request runs to its outcome, and the finally block restores
the idle state.  The flag records whether an upstream generation call
was started.  The sends along the way are modelled separately. -/
def messageRound (c : Conn) (fresh : Nat) (o : Outcome) : Conn × Bool :=
  if c.isProcessing then (c, false)
  else
    match o with
    | Outcome.success => (finallyCleanup (enterFlight c fresh), true)
    | Outcome.failure _ _ => (finallyCleanup (enterFlight c fresh), true)

/-- The socket close handler (llm1.js lines 121-130): abort is invoked
on the installed cancellation handle when one is present; the returned
value is the handle that is fired.  The connection entry is then
removed. -/
def onSocketClose (c : Conn) : Option Nat := c.abortController

/-- The catch block of the message handler (llm1.js lines 106-111): an
error message is sent only when the socket is still open and the
exception is not the cancellation outcome. -/
def catchSend (socketOpen : Bool) (errName errMsg : JStr) : Option OutMsg :=
  if socketOpen = true ∧ errName ≠ ("AbortError").data then
    some (OutMsg.raw (("[❌ Error] ").data ++ errMsg))
  else none

/-! ## Session authentication (stream.js lines 34-55, llm1.js lines 198-289) -/

/-- A resolved user row. -/
structure User where
  id : Nat
  full_name : JStr
deriving DecidableEq, Repr

/-- The parsed session payload, duck-typed: the userId field may be
absent; a stored zero is falsy in JavaScript. -/
structure SessionData where
  userId : Option Nat
deriving DecidableEq, Repr

/-- The relational store as seen by the authenticator: the sessions
query returns the data column of the matching row when one exists, the
users query returns the matching row when one exists; either query may
fail (store unreachable), modelled by the error case. -/
structure DbEnv where
  sessions : JStr → Except Unit (Option JStr)
  users : Nat → Except Unit (Option User)

/-- The capture of one regular-expression match of sessionId= followed
by one or more non-semicolon characters: the characters up to the first
semicolon. -/
def takeNonSemi : JStr → JStr
  | [] => []
  | c :: r => if c = ';' then [] else c :: takeNonSemi r

/-- First match of the sessionId cookie pattern in the raw cookie
header, as the JavaScript regular expression finds it: the earliest
position where the literal sessionId= is followed by at least one
non-semicolon character. -/
def matchSessionId : JStr → Option JStr
  | [] => none
  | c :: rest =>
    match dropPre ("sessionId=").data (c :: rest) with
    | some after =>
      let v := takeNonSemi after
      if v.isEmpty then matchSessionId rest else some v
    | none => matchSessionId rest

/-- Truncation at the first dot, the signature separator. -/
def takeUntilDot : JStr → JStr
  | [] => []
  | c :: r => if c = '.' then [] else c :: takeUntilDot r

/-- Value of a hexadecimal digit. -/
def hexVal (c : Char) : Option Nat :=
  if '0' ≤ c ∧ c ≤ '9' then some (c.toNat - '0'.toNat)
  else if 'a' ≤ c ∧ c ≤ 'f' then some (c.toNat - 'a'.toNat + 10)
  else if 'A' ≤ c ∧ c ≤ 'F' then some (c.toNat - 'A'.toNat + 10)
  else none

/-- Model of decodeURIComponent on percent-encoded ASCII: a percent sign
followed by two hexadecimal digits decodes to the corresponding
character; malformed sequences are left in place (the authenticator only
reaches this on cookies starting with the s%3A prefix, which decode
cleanly). -/
def percentDecode : JStr → JStr
  | [] => []
  | '%' :: h1 :: h2 :: rest =>
    match hexVal h1, hexVal h2 with
    | some a, some b => Char.ofNat (16 * a + b) :: percentDecode rest
    | _, _ => '%' :: percentDecode (h1 :: h2 :: rest)
  | c :: rest => c :: percentDecode rest

/-- Cleaning of the extracted cookie value (stream.js lines 40-43):
strip a literal s: prefix, then a percent-encoded s%3A prefix after
decoding, then truncate at the first dot when one is present. -/
def cleanSessionId (sid0 : JStr) : JStr :=
  let s1 := if hasPre (("s:").data) sid0 then sid0.drop 2 else sid0
  let s2 := if hasPre (("s%3A").data) s1 then (percentDecode s1).drop 2 else s1
  if s2.contains '.' then takeUntilDot s2 else s2

/-- The body of validateUserSession before its catch-all (stream.js
lines 35-50): each failure step resolves to a null result; a store
failure or a session-payload parse failure propagates as a thrown
error.  The parse of the stored payload, a JSON.parse of an arbitrary
nested document, is passed in as the pj argument. -/
def validateBody (env : DbEnv) (pj : JStr → Option SessionData)
    (cookieHeader : Option JStr) : Except Unit (Option User) :=
  match cookieHeader with
  | none => Except.ok none
  | some ch =>
    match matchSessionId ch with
    | none => Except.ok none
    | some raw =>
      let sid := cleanSessionId raw
      match env.sessions sid with
      | Except.error e => Except.error e
      | Except.ok none => Except.ok none
      | Except.ok (some dat) =>
        match pj dat with
        | none => Except.error ()
        | some sd =>
          match sd.userId with
          | none => Except.ok none
          | some uid =>
            if uid = 0 then Except.ok none
            else
              match env.users uid with
              | Except.error e => Except.error e
              | Except.ok none => Except.ok none
              | Except.ok (some u) => Except.ok (some u)

/-- validateUserSession (stream.js lines 34-55): the body wrapped in the
catch-all that converts every thrown error into the null result. -/
def validateUserSession (env : DbEnv) (pj : JStr → Option SessionData)
    (cookieHeader : Option JStr) : Option User :=
  match validateBody env pj cookieHeader with
  | Except.ok v => v
  | Except.error _ => none

/-! ## Gated handshake (llm1.js lines 537-577, llm3 variant) -/

/-- Outcome of the gated connection handshake. -/
inductive Handshake where
  | ready (userId : Nat) (fullName : JStr)
  | closed (code : Nat) (reason : JStr)
deriving DecidableEq, Repr

/-- The handshake dispatch on the result of the awaited validation call
(llm1.js lines 547-566): a thrown error closes with 1011, a null result
closes with 1008, a user proceeds. -/
def gatedHandshake : Except Unit (Option User) → Handshake
  | Except.error _ => Handshake.closed 1011 (("Authentication error").data)
  | Except.ok none => Handshake.closed 1008 (("Authentication required").data)
  | Except.ok (some u) => Handshake.ready u.id u.full_name

/-- The gated connection handler composed with validateUserSession.
Because validateUserSession wraps its whole body in a catch-all and
returns null on any failure, the awaited call always resolves normally:
the value given to the handshake dispatch is always a non-thrown
result. -/
def gatedConnect (env : DbEnv) (pj : JStr → Option SessionData)
    (cookieHeader : Option JStr) : Handshake :=
  gatedHandshake (Except.ok (validateUserSession env pj cookieHeader))

/-- Store and parser used to witness the authenticator. -/
def c4Env : DbEnv :=
  { sessions := fun s =>
      if s = ("abc123").data then Except.ok (some (("payload").data))
      else Except.ok none,
    users := fun i =>
      if i = 7 then Except.ok (some ⟨7, ("Ada").data⟩) else Except.ok none }

/-- Session-payload parse used to witness the authenticator. -/
def c4Pj (d : JStr) : Option SessionData :=
  if d = ("payload").data then some ⟨some 7⟩ else none

/-- The unreachable-store environment used to refute C7. -/
def failingStoreEnv : DbEnv :=
  { sessions := fun _ => Except.error (), users := fun _ => Except.ok none }

/-! ## Topic filter (finalserver.js lines 1231-1317, 1374-1383) -/

/-- The fixed keyword list of finalserver.js lines 1231-1309,
transcribed verbatim. -/
def CODING_KEYWORDS : List String := [
  "code", "function", "variable", "constant", "parameter", "argument", "return",
  "loop", "for", "while", "do while", "foreach", "iteration", "break", "continue",
  "conditional", "if", "else", "switch", "case", "ternary", "operator",
  "data structure", "algorithm", "dsa", "array", "list", "string", "tuple",
  "linked list", "doubly linked list", "circular linked list", "stack", "queue",
  "deque", "heap", "priority queue", "tree", "binary tree", "binary search tree",
  "bst", "avl tree", "red black tree", "b tree", "trie", "graph", "directed graph",
  "undirected graph", "dag", "hash", "hash table", "hash map", "dictionary",
  "set", "matrix", "grid", "program", "hey", "hello", "hi",
  "sort", "bubble sort", "selection sort", "insertion sort", "merge sort",
  "quick sort", "heap sort", "counting sort", "radix sort", "bucket sort",
  "search", "linear search", "binary search", "depth first search", "dfs",
  "breadth first search", "bfs", "dijkstra", "bellman ford", "floyd warshall",
  "kruskal", "prim", "topological sort", "dynamic programming", "dp",
  "greedy", "backtracking", "divide and conquer", "recursion", "memoization",
  "optimization", "complexity", "Big O", "space complexity", "time complexity",
  "asymptotic", "amortized",
  "python", "javascript", "java", "cpp", "c++", "c", "csharp", "c#", "rust",
  "go", "golang", "ruby", "php", "swift", "kotlin", "typescript", "scala",
  "groovy", "perl", "r", "matlab", "lua", "haskell", "erlang", "clojure",
  "class", "object", "instance", "inheritance", "polymorphism", "encapsulation",
  "abstraction", "interface", "abstract", "method", "property", "attribute",
  "constructor", "destructor", "getter", "setter", "static", "final", "access modifier",
  "public", "private", "protected", "friend", "virtual", "override", "super",
  "functional", "lambda", "arrow function", "callback", "promise", "async",
  "await", "generator", "iterator", "map", "filter", "reduce", "fold",
  "pure function", "side effect", "immutable", "immutability", "closure",
  "debug", "breakpoint", "debugger", "console", "log", "error", "exception",
  "try catch", "finally", "throw", "stack trace", "assertion", "unit test",
  "integration test", "testing", "mock", "stub", "patch", "coverage",
  "syntax", "logic", "compile", "compiler", "interpreter", "bytecode",
  "ast", "parsing", "lexing", "token", "literal", "identifier", "keyword",
  "semicolon", "bracket", "brace", "syntax error", "runtime error",
  "html", "css", "dom", "api", "rest", "restful", "http", "https", "json",
  "xml", "yaml", "fetch", "ajax", "websocket", "framework", "library",
  "react", "vue", "angular", "node", "nodejs", "express", "flask", "django",
  "bootstrap", "tailwind", "webpack", "babel", "npm", "yarn", "pip", "maven",
  "database", "sql", "mysql", "postgresql", "mongodb", "redis", "nosql",
  "query", "select", "insert", "update", "delete", "join", "index",
  "primary key", "foreign key", "transaction", "orm", "normalization",
  "git", "github", "gitlab", "bitbucket", "commit", "push", "pull", "merge",
  "branch", "fork", "clone", "rebase", "stash", "diff", "conflict",
  "docker", "kubernetes", "container", "ci", "cd", "jenkins", "deployment",
  "production", "staging", "environment", "server", "client", "cloud",
  "aws", "azure", "gcp", "heroku", "lambda",
  "leetcode", "hackerrank", "codeforces", "codewars", "geeksforgeeks",
  "stack overflow", "github", "codepen", "replit",
  "design pattern", "solid", "dry", "kiss", "yagni", "refactor", "refactoring",
  "code review", "documentation", "comment", "clean code", "best practice",
  "convention", "style guide", "linter", "formatter", "prettier", "eslint"]

/-- The polite refusal sent for non-coding prompts (finalserver.js line
1311). -/
def POLITE_FILTER_MESSAGE : String :=
  "I appreciate your question! However, I\x27m specifically designed to help with coding and Data Structures & Algorithms (DSA) topics. Could you please ask me something related to programming, algorithms, or data structures? I\x27d be happy to help! 😊"

/-- Lowercasing of a prompt, as toLowerCase does on ASCII. -/
def toLowerStr (s : JStr) : JStr := s.map Char.toLower

/-- isCodeRelated (finalserver.js lines 1314-1317): some keyword occurs
as a substring of the lowercased prompt. -/
def isCodeRelated (prompt : JStr) : Bool :=
  CODING_KEYWORDS.any (fun k => hasSub k.data (toLowerStr prompt))

/-- The finalserver.js message handler head (lines 1370-1462): a prompt
failing the topic filter is answered with the polite completion envelope
and no upstream call is made; otherwise the upstream call proceeds into
the decode loop.  The flag records whether the generate call was
issued. -/
def handlePromptFiltered (prompt : JStr) (u : Upstream) : Bool × List OutMsg :=
  if isCodeRelated prompt then (true, relayMessage u)
  else (false, [OutMsg.completeFiltered POLITE_FILTER_MESSAGE.data])

/-- The stream.js connection handler (lines 73-159): the message path
relays the prompt through relayMessage.  The handshake request cookie
and the database pool are in scope in the file but the handler body
never reads either; validateUserSession is defined in the same file yet
is not called on this path. -/
def streamConnHandler (env : DbEnv) (cookie : Option JStr) (prompt : JStr)
    (u : Upstream) : List OutMsg :=
  relayMessage u

/-! ## Canonical serialization of upstream streams, following the wire
format of spec section 6, used to state the stream-level claims -/

/-- The serialized line of one record carrying a text fragment. -/
def serializeResponseLine (x : JStr) : JStr :=
  ("\x7b\"response\":\"").data ++ x ++ ("\"\x7d").data

/-- The serialized line of the completion record. -/
def doneLine : JStr := ("\x7b\"done\":true\x7d").data

/-- A character that needs no escaping inside a JSON string literal and
does not end a line. -/
def okChar (c : Char) : Prop := c ≠ '"' ∧ c ≠ '\\' ∧ c ≠ '\n'

instance (c : Char) : Decidable (okChar c) := by unfold okChar; infer_instance

/-- The bytes of a stream consisting solely of the given fragment
records, in order, followed by one completion record, each record on its
own newline-terminated line. -/
def serializeStream (xs : List JStr) : JStr :=
  (xs.map (fun x => serializeResponseLine x ++ ['\n'])).flatten ++ doneLine ++ ['\n']

/-! ## Reference forms used in the statements of the lemmas -/

/-- The effect of one line of the structured loop, without the break
control: transcript update and forwarded messages. -/
def lineStep (fr : JStr) (l : JStr) : JStr × List OutMsg :=
  if blank l then (fr, [])
  else
    match parseRecord l with
    | none => (fr, [])
    | some r =>
      let s := recOut fr r
      (s.1, s.2.1)

/-- Plain fold of lineStep over a line sequence. -/
def foldLines (fr : JStr) : List JStr → JStr × List OutMsg
  | [] => (fr, [])
  | l :: rest =>
    let s := lineStep fr l
    let t := foldLines s.1 rest
    (t.1, s.2 ++ t.2)

/-- A line that does not break the structured loop: blank, unparsable,
or a record without the completion flag. -/
def noBreak (l : JStr) : Bool :=
  blank l ||
    match parseRecord l with
    | none => true
    | some r => !r.done

/-! ## Lemmas on literal-pattern stripping and substring search -/

theorem dropPre_self (p r : JStr) : dropPre p (p ++ r) = some r := by
  induction p with
  | nil => rfl
  | cons a p ih => simp [dropPre, ih]

theorem dropPre_eq_some (p s r : JStr) : dropPre p s = some r ↔ s = p ++ r := by
  induction p generalizing s with
  | nil => simp [dropPre]
  | cons a p ih =>
    cases s with
    | nil => simp [dropPre]
    | cons b s =>
      by_cases h : a = b
      · subst h
        simp [dropPre, ih]
      · rw [dropPre, if_neg h]
        constructor
        · intro hh
          exact Option.noConfusion hh
        · intro hh
          exact absurd (List.cons_eq_cons.mp hh).1.symm h

theorem hasPre_iff (p s : JStr) : hasPre p s = true ↔ ∃ r, s = p ++ r := by
  rw [hasPre, Option.isSome_iff_exists]
  constructor
  · rintro ⟨r, hr⟩
    exact ⟨r, (dropPre_eq_some p s r).mp hr⟩
  · rintro ⟨r, hr⟩
    exact ⟨r, (dropPre_eq_some p s r).mpr hr⟩

theorem hasSub_iff (n h : JStr) : hasSub n h = true ↔ ∃ a b, h = a ++ (n ++ b) := by
  induction h with
  | nil =>
    simp only [hasSub, List.isEmpty_iff]
    constructor
    · rintro rfl
      exact ⟨[], [], rfl⟩
    · rintro ⟨a, b, hab⟩
      rcases List.append_eq_nil.mp hab.symm with ⟨rfl, h2⟩
      rcases List.append_eq_nil.mp h2 with ⟨rfl, rfl⟩
      rfl
  | cons c t ih =>
    simp only [hasSub, Bool.or_eq_true, hasPre_iff, ih]
    constructor
    · rintro (⟨r, hr⟩ | ⟨a, b, hab⟩)
      · exact ⟨[], r, by simpa using hr⟩
      · exact ⟨c :: a, b, by simp [hab]⟩
    · rintro ⟨a, b, hab⟩
      cases a with
      | nil =>
        left
        exact ⟨b, by simpa using hab⟩
      | cons a0 a' =>
        right
        rcases List.cons_eq_cons.mp hab with ⟨rfl, ht⟩
        exact ⟨a', b, ht⟩

/-! ## Lemmas on newline splitting -/

theorem splitNlP_noNl (s : JStr) (h : noNl s) : splitNlP s = ([], s) := by
  induction s with
  | nil => rfl
  | cons c rest ih =>
    rw [noNl, List.mem_cons, not_or] at h
    obtain ⟨h1, h2⟩ := h
    have hc : ¬ c = '\n' := fun hh => h1 hh.symm
    simp [splitNlP, hc, ih h2]

theorem splitNlP_append (a s : JStr) :
    splitNlP (a ++ s) = joinSplit (splitNlP a) (splitNlP s) := by
  induction a with
  | nil =>
    cases hq : splitNlP s with
    | mk q1 q2 =>
      cases q1 <;> simp [splitNlP, joinSplit, hq]
  | cons c a ih =>
    by_cases hc : c = '\n'
    · subst hc
      simp only [List.cons_append, splitNlP, if_pos rfl]
      cases ha : (splitNlP a).1 <;> cases hs : (splitNlP s).1 <;>
        simp [joinSplit, ih, ha, hs]
    · simp only [List.cons_append, splitNlP, if_neg hc]
      cases ha : (splitNlP a).1 <;> cases hs : (splitNlP s).1 <;>
        simp [joinSplit, ih, ha, hs]

theorem splitNlP_parts_noNl (s : JStr) :
    (∀ l ∈ (splitNlP s).1, noNl l) ∧ noNl (splitNlP s).2 := by
  induction s with
  | nil => simp [splitNlP, noNl]
  | cons c rest ih =>
    by_cases hc : c = '\n'
    · subst hc
      simp only [splitNlP, if_pos rfl]
      refine ⟨?_, ih.2⟩
      intro l hl
      rcases List.mem_cons.mp hl with rfl | hl2
      · simp [noNl]
      · exact ih.1 l hl2
    · simp only [splitNlP, if_neg hc]
      cases h1 : (splitNlP rest).1 with
      | nil =>
        refine ⟨by simp, ?_⟩
        rw [noNl, List.mem_cons, not_or]
        exact ⟨fun hh => hc hh.symm, ih.2⟩
      | cons l ls =>
        constructor
        · intro m hm
          rcases List.mem_cons.mp hm with rfl | hm2
          · have hl : noNl l := ih.1 l (by rw [h1]; exact List.mem_cons_self _ _)
            rw [noNl, List.mem_cons, not_or]
            exact ⟨fun hh => hc hh.symm, hl⟩
          · exact ih.1 m (by rw [h1]; exact List.mem_cons_of_mem _ hm2)
        · exact ih.2

theorem splitNlP_line (l s : JStr) (h : noNl l) :
    splitNlP (l ++ '\n' :: s) = (l :: (splitNlP s).1, (splitNlP s).2) := by
  induction l with
  | nil => simp [splitNlP]
  | cons c rest ih =>
    rw [noNl, List.mem_cons, not_or] at h
    obtain ⟨h1, h2⟩ := h
    have hc : ¬ c = '\n' := fun hh => h1 hh.symm
    simp [splitNlP, hc, ih h2]

/-! ## Lemmas on the structured decode loop -/

theorem recOut_break (fr : JStr) (r : StreamRec) : (recOut fr r).2.2 = r.done := by
  unfold recOut
  cases hd : r.done <;> cases hr : r.response <;> simp [hd, hr, apply_ite]

theorem procLines_eq_foldLines (ls : List JStr) (fr : JStr)
    (h : ∀ l ∈ ls.dropLast, noBreak l = true) :
    procLines fr ls = foldLines fr ls := by
  induction ls generalizing fr with
  | nil => rfl
  | cons l rest ih =>
    have hrest : ∀ x ∈ rest.dropLast, noBreak x = true := by
      intro x hx
      apply h
      cases rest with
      | nil => simp at hx
      | cons r2 rs =>
        have hdl : (l :: r2 :: rs).dropLast = l :: (r2 :: rs).dropLast :=
          List.dropLast_cons_of_ne_nil (by simp)
        rw [hdl]
        exact List.mem_cons_of_mem _ hx
    simp only [procLines, foldLines, lineStep]
    by_cases hb : blank l = true
    · simp [hb, ih _ hrest]
    · simp only [hb, Bool.false_eq_true, if_false]
      cases hp : parseRecord l with
      | none => simp [ih _ hrest]
      | some r =>
        cases hd : r.done with
        | false =>
          have hbr : (recOut fr r).2.2 = false := by rw [recOut_break, hd]
          simp [hbr, ih _ hrest]
        | true =>
          cases rest with
          | nil =>
            have hbr : (recOut fr r).2.2 = true := by rw [recOut_break, hd]
            simp [hbr, foldLines]
          | cons r2 rs =>
            exfalso
            have hdl : (l :: r2 :: rs).dropLast = l :: (r2 :: rs).dropLast :=
              List.dropLast_cons_of_ne_nil (by simp)
            have hnb := h l (by rw [hdl]; exact List.mem_cons_self _ _)
            rw [noBreak, hp] at hnb
            simp [hb, hd] at hnb

theorem foldLines_append (A B : List JStr) (fr : JStr) :
    foldLines fr (A ++ B) =
      ((foldLines (foldLines fr A).1 B).1,
       (foldLines fr A).2 ++ (foldLines (foldLines fr A).1 B).2) := by
  induction A generalizing fr with
  | nil => simp [foldLines]
  | cons l A ih => simp [foldLines, ih, List.append_assoc]

theorem dropLast_append_cons (A : List JStr) (m : JStr) (ms : List JStr) :
    (A ++ m :: ms).dropLast = A ++ (m :: ms).dropLast := by
  induction A with
  | nil => rfl
  | cons a A ih =>
    have hne : A ++ m :: ms ≠ [] := by simp
    rw [List.cons_append, List.dropLast_cons_of_ne_nil hne, ih, List.cons_append]

theorem procChunks_eq_foldLines (chunks : List JStr) (b fr : JStr) (hb : noNl b)
    (h : ∀ l ∈ ((splitNlP (b ++ chunks.flatten)).1).dropLast, noBreak l = true) :
    procChunks b fr chunks = (foldLines fr (splitNlP (b ++ chunks.flatten)).1).2 := by
  induction chunks generalizing b fr with
  | nil =>
    simp [procChunks, splitNlP_noNl b hb, foldLines]
  | cons ch rest ih =>
    have ht1 : noNl (splitNlP (b ++ ch)).2 := (splitNlP_parts_noNl (b ++ ch)).2
    have hsp : splitNlP (b ++ (ch :: rest).flatten) =
        joinSplit (splitNlP (b ++ ch)) (splitNlP rest.flatten) := by
      rw [List.flatten_cons, ← List.append_assoc, splitNlP_append]
    have hsp2 : splitNlP ((splitNlP (b ++ ch)).2 ++ rest.flatten) =
        joinSplit ([], (splitNlP (b ++ ch)).2) (splitNlP rest.flatten) := by
      rw [splitNlP_append, splitNlP_noNl _ ht1]
    have hL : (splitNlP (b ++ (ch :: rest).flatten)).1 =
        (splitNlP (b ++ ch)).1 ++
          (splitNlP ((splitNlP (b ++ ch)).2 ++ rest.flatten)).1 := by
      rw [hsp, hsp2]
      cases hq : (splitNlP rest.flatten).1 <;> simp [joinSplit, hq]
    rw [hL] at h ⊢
    simp only [procChunks]
    cases hq2 : (splitNlP ((splitNlP (b ++ ch)).2 ++ rest.flatten)).1 with
    | nil =>
      rw [hq2] at h
      rw [List.append_nil] at h ⊢
      have hproc : procLines fr (splitNlP (b ++ ch)).1 =
          foldLines fr (splitNlP (b ++ ch)).1 := procLines_eq_foldLines _ _ h
      have hrest := ih (splitNlP (b ++ ch)).2
        (procLines fr (splitNlP (b ++ ch)).1).1 ht1
        (by rw [hq2]; simp)
      rw [hq2] at hrest
      rw [hrest, hproc]
      simp [foldLines]
    | cons m ms =>
      rw [hq2] at h
      rw [dropLast_append_cons] at h
      have h1 : ∀ l ∈ (splitNlP (b ++ ch)).1, noBreak l = true := fun l hl =>
        h l (List.mem_append_left _ hl)
      have h2 : ∀ l ∈ (m :: ms).dropLast, noBreak l = true := fun l hl =>
        h l (List.mem_append_right _ hl)
      have hproc : procLines fr (splitNlP (b ++ ch)).1 =
          foldLines fr (splitNlP (b ++ ch)).1 :=
        procLines_eq_foldLines _ _ (fun l hl => h1 l (List.dropLast_subset _ hl))
      have hrest := ih (splitNlP (b ++ ch)).2
        (procLines fr (splitNlP (b ++ ch)).1).1 ht1
        (by rw [hq2]; exact h2)
      rw [hq2] at hrest
      rw [hrest, hproc, foldLines_append]

/-- The complete lines extracted across a chunked stream depend only on
the concatenation of the chunks. -/
theorem extractLines_eq (chunks : List JStr) (b : JStr) (hb : noNl b) :
    extractLines b chunks = (splitNlP (b ++ chunks.flatten)).1 := by
  induction chunks generalizing b with
  | nil => simp [extractLines, splitNlP_noNl b hb]
  | cons ch rest ih =>
    have ht1 : noNl (splitNlP (b ++ ch)).2 := (splitNlP_parts_noNl (b ++ ch)).2
    have hsp : splitNlP (b ++ (ch :: rest).flatten) =
        joinSplit (splitNlP (b ++ ch)) (splitNlP rest.flatten) := by
      rw [List.flatten_cons, ← List.append_assoc, splitNlP_append]
    have hsp2 : splitNlP ((splitNlP (b ++ ch)).2 ++ rest.flatten) =
        joinSplit ([], (splitNlP (b ++ ch)).2) (splitNlP rest.flatten) := by
      rw [splitNlP_append, splitNlP_noNl _ ht1]
    have hL : (splitNlP (b ++ (ch :: rest).flatten)).1 =
        (splitNlP (b ++ ch)).1 ++
          (splitNlP ((splitNlP (b ++ ch)).2 ++ rest.flatten)).1 := by
      rw [hsp, hsp2]
      cases hq : (splitNlP rest.flatten).1 <;> simp [joinSplit, hq]
    rw [hL]
    simp only [extractLines]
    rw [ih _ ht1]

/-! ## Lemmas on the canonical serialization -/

theorem strBody_closed (x r : JStr) (hx : ∀ c ∈ x, c ≠ '"' ∧ c ≠ '\\') :
    strBody (x ++ '"' :: r) = some (x, r) := by
  induction x with
  | nil => simp [strBody]
  | cons c x ih =>
    obtain ⟨h1, h2⟩ := hx c (List.mem_cons_self _ _)
    have hrest : ∀ c ∈ x, c ≠ '"' ∧ c ≠ '\\' := fun d hd =>
      hx d (List.mem_cons_of_mem _ hd)
    simp [strBody, h1, h2, ih hrest]

theorem parseRecord_ser (x : JStr) (hx : ∀ c ∈ x, okChar c) :
    parseRecord (serializeResponseLine x) = some ⟨some x, false, none⟩ := by
  have hq : ∀ c ∈ x, c ≠ '"' ∧ c ≠ '\\' := fun c hc =>
    ⟨(hx c hc).1, (hx c hc).2.1⟩
  have hdrop : dropPre (("\x7b\"response\":\"").data) (serializeResponseLine x) =
      some (x ++ '"' :: ("\x7d").data) := by
    rw [serializeResponseLine, List.append_assoc, dropPre_self]
  simp [parseRecord, hdrop, strBody_closed x _ hq]

theorem blank_ser (x : JStr) : blank (serializeResponseLine x) = false := by
  rw [blank, serializeResponseLine, List.append_assoc, List.all_append]
  have h : (("\x7b\"response\":\"").data).all Char.isWhitespace = false := by decide
  rw [h, Bool.false_and]

theorem noNl_ser (x : JStr) (hx : ∀ c ∈ x, okChar c) :
    noNl (serializeResponseLine x) := by
  rw [noNl, serializeResponseLine]
  intro hm
  rcases List.mem_append.mp hm with hm2 | hm2
  · rcases List.mem_append.mp hm2 with hm3 | hm3
    · revert hm3
      decide
    · exact (hx _ hm3).2.2 rfl
  · revert hm2
    decide

theorem noBreak_ser (x : JStr) (hx : ∀ c ∈ x, okChar c) :
    noBreak (serializeResponseLine x) = true := by
  rw [noBreak, parseRecord_ser x hx]
  simp

theorem serializeStream_cons (x : JStr) (xs : List JStr) :
    serializeStream (x :: xs) = serializeResponseLine x ++ '\n' :: serializeStream xs := by
  rw [serializeStream, serializeStream, List.map_cons, List.flatten_cons]
  simp [List.append_assoc]

theorem splitNlP_serializeStream (xs : List JStr)
    (hx : ∀ x ∈ xs, ∀ c ∈ x, okChar c) :
    splitNlP (serializeStream xs) =
      (xs.map serializeResponseLine ++ [doneLine], []) := by
  induction xs with
  | nil =>
    rw [serializeStream]
    simp only [List.map_nil, List.flatten_nil, List.nil_append]
    rw [splitNlP_line doneLine [] (by decide)]
    rfl
  | cons x xs ih =>
    have hok : ∀ c ∈ x, okChar c := hx x (List.mem_cons_self _ _)
    have hrest : ∀ y ∈ xs, ∀ c ∈ y, okChar c := fun y hy =>
      hx y (List.mem_cons_of_mem _ hy)
    rw [serializeStream_cons, splitNlP_line _ _ (noNl_ser x hok), ih hrest]
    simp

theorem foldLines_map_ser (xs : List JStr) (fr : JStr)
    (hx : ∀ x ∈ xs, x ≠ [] ∧ ∀ c ∈ x, okChar c) :
    foldLines fr (xs.map serializeResponseLine) =
      (fr ++ xs.flatten, xs.map OutMsg.stream) := by
  induction xs generalizing fr with
  | nil => simp [foldLines]
  | cons x xs ih =>
    obtain ⟨hne, hok⟩ := hx x (List.mem_cons_self _ _)
    have hrest : ∀ y ∈ xs, y ≠ [] ∧ ∀ c ∈ y, okChar c := fun y hy =>
      hx y (List.mem_cons_of_mem _ hy)
    have hemp : x.isEmpty = false := by
      cases x with
      | nil => exact absurd rfl hne
      | cons c cs => rfl
    simp only [List.map_cons, foldLines, lineStep, blank_ser,
      Bool.false_eq_true, if_false, parseRecord_ser x hok, recOut, hemp]
    simp [ih _ hrest, List.append_assoc]

/-! ## Claim theorems -/

/-- C1: for every upstream stream consisting solely of N records each
carrying a nonempty, escape-free text fragment, in order, followed by
one completion record, and however the bytes are partitioned into read
chunks, the relay forwards the N fragments to the socket in order and
emits exactly one completion signal whose content equals the
concatenation of the fragments. -/
theorem c1_transcript_concat (xs : List JStr) (chunks : List JStr)
    (hx : ∀ x ∈ xs, x ≠ [] ∧ ∀ c ∈ x, okChar c)
    (hc : chunks.flatten = serializeStream xs) :
    relayMessage (Upstream.okStream chunks) =
      xs.map OutMsg.stream ++ [OutMsg.complete xs.flatten] := by
  have hok : ∀ x ∈ xs, ∀ c ∈ x, okChar c := fun x hxx => (hx x hxx).2
  have hsplit : splitNlP (([] : JStr) ++ chunks.flatten) =
      (xs.map serializeResponseLine ++ [doneLine], []) := by
    rw [List.nil_append, hc, splitNlP_serializeStream xs hok]
  have hnb : ∀ l ∈ ((splitNlP (([] : JStr) ++ chunks.flatten)).1).dropLast,
      noBreak l = true := by
    rw [hsplit]
    intro l hl
    rw [List.dropLast_concat] at hl
    rcases List.mem_map.mp hl with ⟨x, hxx, rfl⟩
    exact noBreak_ser x (hok x hxx)
  have hT := procChunks_eq_foldLines chunks [] [] (by decide) hnb
  rw [hsplit] at hT
  show procChunks [] [] chunks = _
  rw [hT, foldLines_append, foldLines_map_ser xs [] hx]
  have hbd : blank doneLine = false := by decide
  have hpd : parseRecord doneLine = some ⟨none, true, none⟩ := by decide
  simp [foldLines, lineStep, hbd, hpd, recOut]

/-- Witness for C1: a two-fragment stream delivered as a single chunk
produces the two fragments in order and one completion signal carrying
their concatenation. -/
theorem c1_witness :
    relayMessage (Upstream.okStream
        [serializeStream [('a' :: 'b' :: []), ('c' :: [])]]) =
      [OutMsg.stream ('a' :: 'b' :: []), OutMsg.stream ('c' :: []),
       OutMsg.complete ('a' :: 'b' :: 'c' :: [])] := by
  have h := c1_transcript_concat [('a' :: 'b' :: []), ('c' :: [])]
    [serializeStream [('a' :: 'b' :: []), ('c' :: [])]]
    (by decide) (by simp)
  simpa using h

/-- C2: the sequence of decoded records depends only on the
concatenation of the upstream bytes, never on the chunk partition,
because the carry-over buffer retains the trailing incomplete line between
reads; in particular the record line split into the two reads of the
claim decodes to exactly one record carrying the fragment x. -/
theorem c2_partition_independence :
    (∀ chunks : List JStr, extractLines [] chunks = (splitNlP chunks.flatten).1)
    ∧ (∀ c1 c2 : List JStr, c1.flatten = c2.flatten →
        decodedRecords c1 = decodedRecords c2)
    ∧ decodedRecords [("\x7b\"resp").data, ("onse\":\"x\"\x7d\n").data] =
        [⟨some ('x' :: []), false, none⟩] := by
  have hext : ∀ chunks : List JStr,
      extractLines [] chunks = (splitNlP chunks.flatten).1 := by
    intro chunks
    have h := extractLines_eq chunks [] (by decide)
    simpa using h
  refine ⟨hext, ?_, by decide⟩
  intro c1 c2 hcc
  rw [decodedRecords, decodedRecords, hext c1, hext c2, hcc]

/-- Witness for C2: the straddled partition and the single-chunk
partition of the same bytes decode to the same record sequence. -/
theorem c2_witness :
    decodedRecords [("\x7b\"resp").data, ("onse\":\"x\"\x7d\n").data] =
      decodedRecords [("\x7b\"response\":\"x\"\x7d\n").data] :=
  c2_partition_independence.2.1 _ _ (by decide)

/-- C8: a line that fails to parse, wherever it occurs, is skipped
without aborting the decode loop: processing a line sequence with the
malformed line inserted equals processing the sequence without it, so
every subsequent valid record is still decoded and forwarded normally. -/
theorem c8_noise_skipped (fr : JStr) (pre rest : List JStr) (bad : JStr)
    (hb : parseRecord bad = none) :
    procLines fr (pre ++ bad :: rest) = procLines fr (pre ++ rest) := by
  induction pre generalizing fr with
  | nil =>
    simp only [List.nil_append]
    by_cases hbl : blank bad = true
    · simp [procLines, hbl]
    · simp [procLines, hbl, hb]
  | cons l pre ih =>
    simp only [List.cons_append, procLines]
    by_cases hbl : blank l = true
    · simp [hbl, ih]
    · simp only [hbl, Bool.false_eq_true, if_false]
      cases hp : parseRecord l with
      | none => simp [ih]
      | some r =>
        cases hd : (recOut fr r).2.2 with
        | false => simp [hd, ih]
        | true => simp [hd]

/-- Witness for C8: an unparsable line between a fragment record and the
completion record changes nothing. -/
theorem c8_witness :
    procLines [] (serializeResponseLine ('a' :: []) :: ("garbage").data ::
        doneLine :: []) =
      procLines [] (serializeResponseLine ('a' :: []) :: doneLine :: []) :=
  c8_noise_skipped [] [serializeResponseLine ('a' :: [])] [doneLine]
    (("garbage").data) (by decide)

/-- C5 counterexample: the break on a completion record exits only the
inner per-batch line loop; the outer read loop keeps reading, so a
record arriving in a later chunk is still decoded and forwarded after
the completion signal, and the output is not the bare completion signal
the claim predicts. -/
theorem c5_counterexample :
    relayMessage (Upstream.okStream
        [("\x7b\"done\":true\x7d\n").data, ("\x7b\"response\":\"y\"\x7d\n").data]) =
      [OutMsg.complete [], OutMsg.stream ('y' :: [])]
    ∧ relayMessage (Upstream.okStream
        [("\x7b\"done\":true\x7d\n").data, ("\x7b\"response\":\"y\"\x7d\n").data]) ≠
      [OutMsg.complete []] := by
  exact ⟨by decide, by decide⟩

/-- C5 amended: a record carrying the completion flag makes the decoder
forward the completion signal with the accumulated transcript and drop
only the remaining lines of the current read batch; the outer read loop
continues, so a record in a later chunk is still decoded and forwarded;
in the gated variant a record carrying a truthy error field forwards the
error banner and likewise ends only the current batch. -/
theorem c5_amended :
    (∀ (fr d : JStr) (post : List JStr) (r : StreamRec), blank d = false →
      parseRecord d = some r → r.done = true →
      procLines fr (d :: post) = ((recOut fr r).1, (recOut fr r).2.1))
    ∧ (∀ x : JStr, x ≠ [] → (∀ c ∈ x, okChar c) →
        relayMessage (Upstream.okStream
            [doneLine ++ '\n' :: [], serializeResponseLine x ++ '\n' :: []]) =
          [OutMsg.complete [], OutMsg.stream x])
    ∧ (∀ (fr e : JStr) (post : List JStr) (r : StreamRec) (m : JStr),
        blank e = false → parseRecord e = some r → r.done = false →
        r.response = none → r.error = some m → m ≠ [] →
        gatedProcLines fr (e :: post) = (fr, [OutMsg.raw (gatedErrorMsg m)])) := by
  refine ⟨?_, ?_, ?_⟩
  · intro fr d post r hbl hp hd
    have hbr : (recOut fr r).2.2 = true := by rw [recOut_break, hd]
    simp [procLines, hbl, hp, hbr]
  · intro x hne hok
    have hemp : x.isEmpty = false := by
      cases x with
      | nil => exact absurd rfl hne
      | cons c cs => rfl
    have h1 : splitNlP (([] : JStr) ++ (doneLine ++ '\n' :: [])) =
        ([doneLine], []) := by
      rw [List.nil_append, splitNlP_line doneLine [] (by decide)]
      rfl
    have h2 : splitNlP (([] : JStr) ++ (serializeResponseLine x ++ '\n' :: [])) =
        ([serializeResponseLine x], []) := by
      rw [List.nil_append, splitNlP_line _ [] (noNl_ser x hok)]
      rfl
    have h3 : procLines ([] : JStr) [doneLine] = ([], [OutMsg.complete []]) := by
      decide
    have h4 : procLines ([] : JStr) [serializeResponseLine x] =
        (x, [OutMsg.stream x]) := by
      simp [procLines, blank_ser, parseRecord_ser x hok, recOut, hemp]
    show procChunks [] [] _ = _
    simp only [procChunks, h1, h2, h3, h4]
    simp
  · intro fr e post r m hbl hp hd hresp herr hne
    have hemp : m.isEmpty = false := by
      cases m with
      | nil => exact absurd rfl hne
      | cons c cs => rfl
    simp [gatedProcLines, hbl, hp, gatedRecOut, hd, hresp, herr, hemp]

/-- Witness for the amended C5: the completion record at the head of a
batch forwards the completion signal and drops the rest of that batch. -/
theorem c5_amended_witness :
    procLines [] (doneLine :: serializeResponseLine ('y' :: []) :: []) =
      ((recOut [] ⟨none, true, none⟩).1, (recOut [] ⟨none, true, none⟩).2.1) :=
  c5_amended.1 [] doneLine (serializeResponseLine ('y' :: []) :: [])
    ⟨none, true, none⟩ (by decide) (by decide) rfl

/-- C3: while the busy flag is set an arriving prompt starts no upstream
call and leaves the connection unchanged; entering flight sets the busy
flag and installs the fresh cancellation handle; the cleanup that runs
on success, failure and cancellation alike leaves the connection idle
with no handle; and a round that follows a completed round starts its
upstream call. -/
theorem c3_single_flight :
    (∀ (c : Conn) (f : Nat) (o : Outcome), c.isProcessing = true →
      messageRound c f o = (c, false))
    ∧ (∀ (c : Conn) (f : Nat),
        (enterFlight c f).isProcessing = true ∧
        (enterFlight c f).abortController = some f)
    ∧ (∀ (c : Conn) (f : Nat) (o : Outcome), c.isProcessing = false →
        messageRound c f o = (finallyCleanup (enterFlight c f), true))
    ∧ (∀ c : Conn, (finallyCleanup c).isProcessing = false ∧
        (finallyCleanup c).abortController = none)
    ∧ (∀ (c : Conn) (f : Nat) (o : Outcome) (f2 : Nat) (o2 : Outcome),
        c.isProcessing = false →
        (messageRound (messageRound c f o).1 f2 o2).2 = true) := by
  refine ⟨?_, ?_, ?_, ?_, ?_⟩
  · intro c f o hc
    simp [messageRound, hc]
  · intro c f
    exact ⟨rfl, rfl⟩
  · intro c f o hc
    cases o <;> simp [messageRound, hc]
  · intro c
    exact ⟨rfl, rfl⟩
  · intro c f o f2 o2 hc
    cases o <;> cases o2 <;>
      simp [messageRound, hc, finallyCleanup, enterFlight]

/-- Witness for C3: a busy connection drops the prompt; an idle one runs
the round and ends idle with the call started. -/
theorem c3_witness :
    messageRound ⟨true, some 5⟩ 6 Outcome.success = (⟨true, some 5⟩, false)
    ∧ messageRound ⟨false, none⟩ 7 Outcome.success = (⟨false, none⟩, true) := by
  constructor
  · exact c3_single_flight.1 ⟨true, some 5⟩ 6 Outcome.success rfl
  · rw [c3_single_flight.2.2.1 ⟨false, none⟩ 7 Outcome.success rfl]
    rfl

/-- C6: closing the socket while a request is in flight fires abort on
exactly the installed cancellation handle, and the catch block never
forwards the resulting AbortError to the client, whatever the socket
state. -/
theorem c6_close_aborts_silently :
    (∀ (c : Conn) (h : Nat), c.abortController = some h →
      onSocketClose c = some h)
    ∧ (∀ (sockOpen : Bool) (msg : JStr),
        catchSend sockOpen (("AbortError").data) msg = none) := by
  constructor
  · intro c h hc
    rw [onSocketClose, hc]
  · intro so msg
    rw [catchSend, if_neg (fun hh => hh.2 rfl)]

/-- Witness for C6: a connection holding handle three aborts handle
three on close, and an AbortError on an open socket sends nothing. -/
theorem c6_witness :
    onSocketClose ⟨true, some 3⟩ = some 3
    ∧ catchSend true (("AbortError").data) (("boom").data) = none :=
  ⟨c6_close_aborts_silently.1 ⟨true, some 3⟩ 3 rfl,
   c6_close_aborts_silently.2 true (("boom").data)⟩

/-- C4: the connection authenticator resolves every cookie-header input
to either a user row or the null result and never propagates an error:
the absent header, a header without the session pattern, a thrown store
lookup, a lookup miss, an unparsable session payload, a falsy userId
field and a missing or thrown user lookup all converge to the same null
outcome, and only the fully resolved chain yields the user row. -/
theorem c4_validate_total :
    (∀ (env : DbEnv) (pj : JStr → Option SessionData),
      validateUserSession env pj none = none)
    ∧ (∀ (env : DbEnv) (pj : JStr → Option SessionData) (ch : JStr),
        matchSessionId ch = none →
        validateUserSession env pj (some ch) = none)
    ∧ (∀ (env : DbEnv) (pj : JStr → Option SessionData) (ch sid : JStr),
        matchSessionId ch = some sid →
        env.sessions (cleanSessionId sid) = Except.error () →
        validateUserSession env pj (some ch) = none)
    ∧ (∀ (env : DbEnv) (pj : JStr → Option SessionData) (ch sid : JStr),
        matchSessionId ch = some sid →
        env.sessions (cleanSessionId sid) = Except.ok none →
        validateUserSession env pj (some ch) = none)
    ∧ (∀ (env : DbEnv) (pj : JStr → Option SessionData) (ch sid dat : JStr),
        matchSessionId ch = some sid →
        env.sessions (cleanSessionId sid) = Except.ok (some dat) →
        pj dat = none →
        validateUserSession env pj (some ch) = none)
    ∧ (∀ (env : DbEnv) (pj : JStr → Option SessionData) (ch sid dat : JStr)
        (sd : SessionData),
        matchSessionId ch = some sid →
        env.sessions (cleanSessionId sid) = Except.ok (some dat) →
        pj dat = some sd → (sd.userId = none ∨ sd.userId = some 0) →
        validateUserSession env pj (some ch) = none)
    ∧ (∀ (env : DbEnv) (pj : JStr → Option SessionData) (ch sid dat : JStr)
        (sd : SessionData) (uid : Nat),
        matchSessionId ch = some sid →
        env.sessions (cleanSessionId sid) = Except.ok (some dat) →
        pj dat = some sd → sd.userId = some uid → uid ≠ 0 →
        (env.users uid = Except.ok none ∨ env.users uid = Except.error ()) →
        validateUserSession env pj (some ch) = none)
    ∧ (∀ (env : DbEnv) (pj : JStr → Option SessionData) (ch sid dat : JStr)
        (sd : SessionData) (uid : Nat) (u : User),
        matchSessionId ch = some sid →
        env.sessions (cleanSessionId sid) = Except.ok (some dat) →
        pj dat = some sd → sd.userId = some uid → uid ≠ 0 →
        env.users uid = Except.ok (some u) →
        validateUserSession env pj (some ch) = some u) := by
  refine ⟨?_, ?_, ?_, ?_, ?_, ?_, ?_, ?_⟩
  · intro env pj
    rfl
  · intro env pj ch h1
    simp [validateUserSession, validateBody, h1]
  · intro env pj ch sid h1 h2
    simp [validateUserSession, validateBody, h1, h2]
  · intro env pj ch sid h1 h2
    simp [validateUserSession, validateBody, h1, h2]
  · intro env pj ch sid dat h1 h2 h3
    simp [validateUserSession, validateBody, h1, h2, h3]
  · intro env pj ch sid dat sd h1 h2 h3 h4
    rcases h4 with h4 | h4 <;>
      simp [validateUserSession, validateBody, h1, h2, h3, h4]
  · intro env pj ch sid dat sd uid h1 h2 h3 h4 h5 h6
    rcases h6 with h6 | h6 <;>
      simp [validateUserSession, validateBody, h1, h2, h3, h4, h5, h6]
  · intro env pj ch sid dat sd uid u h1 h2 h3 h4 h5 h6
    simp [validateUserSession, validateBody, h1, h2, h3, h4, h5, h6]

/-- Witness for C4: the fully resolved chain yields the user row, and a
cookie header without the session pattern yields the null result. -/
theorem c4_witness :
    validateUserSession c4Env c4Pj (some (("sessionId=s:abc123.sig").data)) =
      some ⟨7, ("Ada").data⟩
    ∧ validateUserSession c4Env c4Pj (some (("foo=bar").data)) = none :=
  ⟨c4_validate_total.2.2.2.2.2.2.2 c4Env c4Pj (("sessionId=s:abc123.sig").data)
      (("s:abc123.sig").data) (("payload").data) ⟨some 7⟩ 7 ⟨7, ("Ada").data⟩
      (by decide) rfl rfl rfl (by decide) rfl,
   c4_validate_total.2.1 c4Env c4Pj (("foo=bar").data) (by decide)⟩

/-- C7 counterexample: with the session store unreachable the gated
handshake still closes with status 1008, not the distinct 1011 the
claim requires, because validateUserSession swallows the store failure
and returns the null result before the handshake can see a thrown
error. -/
theorem c7_counterexample :
    gatedConnect failingStoreEnv (fun _ => none)
        (some (("sessionId=abc").data)) =
      Handshake.closed 1008 (("Authentication required").data)
    ∧ Handshake.closed 1008 (("Authentication required").data) ≠
      Handshake.closed 1011 (("Authentication error").data) := by
  exact ⟨rfl, by decide⟩

/-- C7 amended: a validation that yields no user closes the connection
with status 1008 signaling that authentication is required; a store
failure also closes with 1008, because the catch-all inside
validateUserSession converts it to the null result; the 1011 close
exists in the code but would require the validation call itself to
throw, which its catch-all prevents, so it is never taken; a resolved
user proceeds to the ready state. -/
theorem c7_amended :
    (∀ (env : DbEnv) (pj : JStr → Option SessionData) (ck : Option JStr),
      validateUserSession env pj ck = none →
      gatedConnect env pj ck =
        Handshake.closed 1008 (("Authentication required").data))
    ∧ (∀ (env : DbEnv) (pj : JStr → Option SessionData) (ck : Option JStr),
        (∀ s, env.sessions s = Except.error ()) →
        gatedConnect env pj ck =
          Handshake.closed 1008 (("Authentication required").data))
    ∧ (∀ (env : DbEnv) (pj : JStr → Option SessionData) (ck : Option JStr),
        gatedConnect env pj ck ≠
          Handshake.closed 1011 (("Authentication error").data))
    ∧ (∀ (env : DbEnv) (pj : JStr → Option SessionData) (ck : Option JStr)
        (u : User),
        validateUserSession env pj ck = some u →
        gatedConnect env pj ck = Handshake.ready u.id u.full_name) := by
  refine ⟨?_, ?_, ?_, ?_⟩
  · intro env pj ck h
    rw [gatedConnect, h]
    rfl
  · intro env pj ck hs
    have hv : validateUserSession env pj ck = none := by
      cases ck with
      | none => rfl
      | some ch =>
        simp only [validateUserSession, validateBody]
        cases hm : matchSessionId ch with
        | none => rfl
        | some raw =>
          simp [hs]
    rw [gatedConnect, hv]
    rfl
  · intro env pj ck
    rw [gatedConnect]
    cases hv : validateUserSession env pj ck <;> simp [gatedHandshake]
  · intro env pj ck u h
    rw [gatedConnect, h]
    rfl

/-- Witness for the amended C7: the unreachable store closes the
handshake with 1008 for an arbitrary session cookie. -/
theorem c7_amended_witness :
    gatedConnect failingStoreEnv (fun _ => none)
        (some (("sessionId=zzz").data)) =
      Handshake.closed 1008 (("Authentication required").data) :=
  c7_amended.2.1 failingStoreEnv (fun _ => none)
    (some (("sessionId=zzz").data)) (fun _ => rfl)

/-- C9: a prompt passes the topic filter exactly when some keyword of
the fixed list occurs as a substring of its lowercased text; a filtered
prompt is answered with the polite completion envelope and no upstream
call is made; a passing prompt issues the upstream call; the single
letter r is in the keyword list, so every prompt whose lowercased text
contains the letter r passes the filter. -/
theorem c9_topic_filter :
    (∀ p : JStr, isCodeRelated p = true ↔
      ∃ k ∈ CODING_KEYWORDS, ∃ a b, toLowerStr p = a ++ (k.data ++ b))
    ∧ (∀ (p : JStr) (u : Upstream), isCodeRelated p = false →
        handlePromptFiltered p u =
          (false, [OutMsg.completeFiltered POLITE_FILTER_MESSAGE.data]))
    ∧ (∀ (p : JStr) (u : Upstream), isCodeRelated p = true →
        (handlePromptFiltered p u).1 = true)
    ∧ (("r" : String) ∈ CODING_KEYWORDS)
    ∧ (∀ p : JStr, 'r' ∈ toLowerStr p → isCodeRelated p = true) := by
  refine ⟨?_, ?_, ?_, ?_, ?_⟩
  · intro p
    rw [isCodeRelated, List.any_eq_true]
    constructor
    · rintro ⟨k, hk, hsub⟩
      exact ⟨k, hk, (hasSub_iff _ _).mp hsub⟩
    · rintro ⟨k, hk, hsub⟩
      exact ⟨k, hk, (hasSub_iff _ _).mpr hsub⟩
  · intro p u h
    simp [handlePromptFiltered, h]
  · intro p u h
    simp [handlePromptFiltered, h]
  · decide
  · intro p hr
    rw [isCodeRelated, List.any_eq_true]
    refine ⟨"r", by decide, ?_⟩
    rw [hasSub_iff]
    rcases List.append_of_mem hr with ⟨a, b, hab⟩
    have hone : ("r").data = ['r'] := by decide
    exact ⟨a, b, by rw [hab, hone, List.singleton_append]⟩

set_option maxRecDepth 100000 in
/-- Witness for C9: a prompt with no keyword is answered by the filter
envelope without an upstream call, while a prompt containing the letter
r passes the filter. -/
theorem c9_witness :
    handlePromptFiltered (("sing a song").data) (Upstream.okStream []) =
      (false, [OutMsg.completeFiltered POLITE_FILTER_MESSAGE.data])
    ∧ isCodeRelated (("how is the weather").data) = true :=
  ⟨c9_topic_filter.2.1 (("sing a song").data) (Upstream.okStream []) (by decide),
   c9_topic_filter.2.2.2.2 (("how is the weather").data) (by decide)⟩

/-- C10: the structured relay of stream.js answers identically whatever
the handshake cookie header and whatever the session store contents:
its message handling never consults either, although the session
validator is defined in the same file. -/
theorem c10_cookie_noninterference :
    ∀ (env1 env2 : DbEnv) (c1 c2 : Option JStr) (prompt : JStr) (u : Upstream),
      streamConnHandler env1 c1 prompt u = streamConnHandler env2 c2 prompt u :=
  fun _ _ _ _ _ _ => rfl
